import Mathlib

/-!
Verification of the relais frame store, session registry and plugin
manager against their natural-language specification.

The Go code is shallowly embedded: Go maps become association lists
(every state a Go map can assume has pairwise-distinct keys; the
operations below treat the first occurrence of a key as the binding,
which coincides with map semantics on such states), Go `int64` values
that are only compared (frame indices, durations) become `Int`, byte
slices become `List Nat`, and `time.Time` becomes a (seconds,
nanoseconds) pair.  `fmt.Errorf` results are abstracted into an error
datatype carrying the same distinctions the message strings carry.
-/

namespace Relais

/-! ### Association-list primitives modelling Go map operations -/

/-- First-occurrence lookup: the value a Go map read `m[k]` yields. -/
def lookupA {α β : Type} [DecidableEq α] (k : α) : List (α × β) → Option β
  | [] => none
  | (k', v) :: rest => if k = k' then some v else lookupA k rest

/-- Go map assignment `m[k] = v`: replace the binding of `k`, or append it. -/
def updateAssoc {α β : Type} [DecidableEq α] (k : α) (v : β) : List (α × β) → List (α × β)
  | [] => [(k, v)]
  | (k', v') :: rest => if k = k' then (k, v) :: rest else (k', v') :: updateAssoc k v rest

/-- Go map deletion `delete(m, k)`: every binding of `k` is removed. -/
def eraseKey {α β : Type} [DecidableEq α] (k : α) : List (α × β) → List (α × β)
  | [] => []
  | (k', v) :: rest => if k' = k then eraseKey k rest else (k', v) :: eraseKey k rest

/-- Set-member removal (Go `delete(set, x)`, Redis `SREM`). -/
def removeAll {α : Type} [DecidableEq α] (x : α) : List α → List α
  | [] => []
  | y :: rest => if y = x then removeAll x rest else y :: removeAll x rest

/-- Set insertion (Go `set[x] = struct\x7b\x7d\x7b\x7d`, Redis `SADD`). -/
def sadd {α : Type} [DecidableEq α] (x : α) (l : List α) : List α :=
  if x ∈ l then l else l ++ [x]

/-! ### Frames and the storage error taxonomy -/

/-- `storage.Frame`: bytes as `List Nat`, `time.Time` as an integer instant. -/
structure Frame where
  sessionID : String
  index : Int
  data : List Nat
  timestamp : Int
  mediaType : String
  codec : String
  keyFrame : Bool
deriving Repr, DecidableEq

/-- The two error shapes both backends raise, abstracting the identical
`fmt.Errorf` formats `session not found: %s` and
`frame not found: session %s, index %d`. -/
inductive StorageError where
  | sessionNotFound (sessionID : String)
  | frameNotFound (sessionID : String) (index : Int)
deriving Repr, DecidableEq

instance {e a : Type} [DecidableEq e] [DecidableEq a] : DecidableEq (Except e a) :=
  fun x y =>
    match x, y with
    | .ok u, .ok v =>
        if h : u = v then isTrue (by rw [h])
        else isFalse (by intro hc; injection hc with h2; exact h h2)
    | .error u, .error v =>
        if h : u = v then isTrue (by rw [h])
        else isFalse (by intro hc; injection hc with h2; exact h h2)
    | .ok _, .error _ => isFalse (by intro hc; injection hc)
    | .error _, .ok _ => isFalse (by intro hc; injection hc)

/-- Order used by `sort.Slice(frames, func(i, j) \x7b return frames[i].Index < frames[j].Index \x7d)`. -/
def frameLE (a b : Frame) : Prop := a.index ≤ b.index

instance : DecidableRel frameLE :=
  fun a b => inferInstanceAs (Decidable (a.index ≤ b.index))

instance : IsTotal Frame frameLE := ⟨fun a b => Int.le_total a.index b.index⟩

instance : IsTrans Frame frameLE := ⟨fun _ _ _ h1 h2 => le_trans h1 h2⟩

/-- Sorting a frame slice by ascending `Index`. -/
def sortFrames (l : List Frame) : List Frame := List.insertionSort frameLE l

/-- Go compares strings byte-wise; on UTF-8 data this is code-point
lexicographic order, computed here on the character list. -/
def strLEb : List Char → List Char → Bool
  | [], _ => true
  | _ :: _, [] => false
  | c :: cs, d :: ds =>
      if c.toNat < d.toNat then true
      else if d.toNat < c.toNat then false
      else strLEb cs ds

/-- The string order used by `sort.Strings`. -/
def strLE (a b : String) : Prop := strLEb a.data b.data = true

instance : DecidableRel strLE :=
  fun a b => inferInstanceAs (Decidable (strLEb a.data b.data = true))

/-- `sort.Strings`: ascending lexicographic sort of session IDs. -/
def sortStrings (l : List String) : List String := List.insertionSort strLE l

/-! ### The volatile backend: `MemoryStorage` (pkg/storage/mem.go) -/

/-- `MemoryStorage`: nested map session → index → Frame plus the
active-session set.  The mutex only serialises access and has no
observable effect on the sequential semantics modelled here. -/
structure MemoryStorage where
  frames : List (String × List (Int × Frame))
  sessions : List String
deriving Repr, DecidableEq

/-- `NewMemoryStorage`. -/
def memInit : MemoryStorage := { frames := [], sessions := [] }

/-- `MemoryStorage.PutFrame`: creates the session map (and registers the
session) when absent, then stores the frame under its index.  Always
returns nil. -/
def MemoryStorage.putFrame (s : MemoryStorage) (frame : Frame) : MemoryStorage :=
  match lookupA frame.sessionID s.frames with
  | none =>
      { frames := updateAssoc frame.sessionID (updateAssoc frame.index frame []) s.frames,
        sessions := sadd frame.sessionID s.sessions }
  | some m =>
      { frames := updateAssoc frame.sessionID (updateAssoc frame.index frame m) s.frames,
        sessions := s.sessions }

/-- `MemoryStorage.GetFrame`. -/
def MemoryStorage.getFrame (s : MemoryStorage) (sessionID : String) (frameIndex : Int) :
    Except StorageError Frame :=
  match lookupA sessionID s.frames with
  | none => .error (.sessionNotFound sessionID)
  | some sessionFrames =>
      match lookupA frameIndex sessionFrames with
      | none => .error (.frameNotFound sessionID frameIndex)
      | some frame => .ok frame

/-- `MemoryStorage.ListFrames`: the session's frames sorted by index. -/
def MemoryStorage.listFrames (s : MemoryStorage) (sessionID : String) :
    Except StorageError (List Frame) :=
  match lookupA sessionID s.frames with
  | none => .error (.sessionNotFound sessionID)
  | some sessionFrames => .ok (sortFrames (sessionFrames.map Prod.snd))

/-- `MemoryStorage.ListSessions`: sorted session IDs; never errors. -/
def MemoryStorage.listSessions (s : MemoryStorage) : List String :=
  sortStrings s.sessions

/-- `MemoryStorage.DeleteSession`: removes the frame map and the
active-session marker, or errors when the session is unknown. -/
def MemoryStorage.deleteSession (s : MemoryStorage) (sessionID : String) :
    MemoryStorage × Except StorageError Unit :=
  match lookupA sessionID s.frames with
  | none => (s, .error (.sessionNotFound sessionID))
  | some _ =>
      ({ frames := eraseKey sessionID s.frames,
         sessions := removeAll sessionID s.sessions }, .ok ())

/-- `MemoryStorage.Close`: does nothing and returns nil. -/
def MemoryStorage.close (s : MemoryStorage) : MemoryStorage × Except StorageError Unit :=
  (s, .ok ())

/-! ### The networked backend: `RedisStorage` (redis.go)

The Redis backend state is its key/value and set state: the per-session
list at key `<prefix>frames:<sessionID>` (the key is injective in the
session ID, so lists are indexed here by session ID directly) and the
set at `<prefix>active_sessions`.  JSON (de)serialisation is a faithful
round-trip on every `Frame` field and is modelled as the identity. -/

structure RedisStorage where
  kv : List (String × List Frame)
  activeSessions : List String
deriving Repr, DecidableEq

/-- A freshly connected backend with no persisted data. -/
def redisInit : RedisStorage := { kv := [], activeSessions := [] }

/-- `RPUSH key frame`: append to the list, creating it when missing. -/
def rpush (k : String) (f : Frame) : List (String × List Frame) → List (String × List Frame)
  | [] => [(k, [f])]
  | (k', l) :: rest => if k = k' then (k', l ++ [f]) :: rest else (k', l) :: rpush k f rest

/-- The scan in `RedisStorage.GetFrame`: first list entry with the index. -/
def findFrame (frameIndex : Int) : List Frame → Option Frame
  | [] => none
  | f :: rest => if f.index = frameIndex then some f else findFrame frameIndex rest

/-- `RedisStorage.PutFrame`: one pipeline doing `RPUSH` + `SADD`. -/
def RedisStorage.putFrame (s : RedisStorage) (frame : Frame) : RedisStorage :=
  { kv := rpush frame.sessionID frame s.kv,
    activeSessions := sadd frame.sessionID s.activeSessions }

/-- `RedisStorage.GetFrame`: `SISMEMBER` check, then `LRANGE 0 -1` and a
scan for the first frame whose index matches. -/
def RedisStorage.getFrame (s : RedisStorage) (sessionID : String) (frameIndex : Int) :
    Except StorageError Frame :=
  if sessionID ∈ s.activeSessions then
    match findFrame frameIndex ((lookupA sessionID s.kv).getD []) with
    | some frame => .ok frame
    | none => .error (.frameNotFound sessionID frameIndex)
  else .error (.sessionNotFound sessionID)

/-- `RedisStorage.ListFrames`: `SISMEMBER` check, `LRANGE`, sort by index. -/
def RedisStorage.listFrames (s : RedisStorage) (sessionID : String) :
    Except StorageError (List Frame) :=
  if sessionID ∈ s.activeSessions then
    .ok (sortFrames ((lookupA sessionID s.kv).getD []))
  else .error (.sessionNotFound sessionID)

/-- `RedisStorage.ListSessions`: `SMEMBERS` sorted; never errors. -/
def RedisStorage.listSessions (s : RedisStorage) : List String :=
  sortStrings s.activeSessions

/-- `RedisStorage.DeleteSession`: `SISMEMBER` check, then one pipeline
doing `DEL` of the frames key + `SREM` of the session. -/
def RedisStorage.deleteSession (s : RedisStorage) (sessionID : String) :
    RedisStorage × Except StorageError Unit :=
  if sessionID ∈ s.activeSessions then
    ({ kv := eraseKey sessionID s.kv,
       activeSessions := removeAll sessionID s.activeSessions }, .ok ())
  else (s, .error (.sessionNotFound sessionID))

/-! ### The frame-store operation language and observable results -/

/-- One Frame Store call. -/
inductive Op where
  | put (f : Frame)
  | get (sessionID : String) (index : Int)
  | listF (sessionID : String)
  | listS
  | del (sessionID : String)
deriving Repr, DecidableEq

/-- The observable outcome of one call. -/
inductive Res where
  | ok
  | okFrame (f : Frame)
  | okFrames (l : List Frame)
  | okSessions (l : List String)
  | err (e : StorageError)
deriving Repr, DecidableEq

/-- One memory-backend step. -/
def memStep (s : MemoryStorage) : Op → MemoryStorage × Res
  | .put f => (s.putFrame f, .ok)
  | .get sid i =>
      (s, match s.getFrame sid i with
          | .ok f => .okFrame f
          | .error e => .err e)
  | .listF sid =>
      (s, match s.listFrames sid with
          | .ok l => .okFrames l
          | .error e => .err e)
  | .listS => (s, .okSessions s.listSessions)
  | .del sid =>
      match s.deleteSession sid with
      | (s', .ok _) => (s', .ok)
      | (s', .error e) => (s', .err e)

/-- One Redis-backend step. -/
def redisStep (s : RedisStorage) : Op → RedisStorage × Res
  | .put f => (s.putFrame f, .ok)
  | .get sid i =>
      (s, match s.getFrame sid i with
          | .ok f => .okFrame f
          | .error e => .err e)
  | .listF sid =>
      (s, match s.listFrames sid with
          | .ok l => .okFrames l
          | .error e => .err e)
  | .listS => (s, .okSessions s.listSessions)
  | .del sid =>
      match s.deleteSession sid with
      | (s', .ok _) => (s', .ok)
      | (s', .error e) => (s', .err e)

/-- The memory-backend state after a call sequence. -/
def memRunState (s : MemoryStorage) : List Op → MemoryStorage
  | [] => s
  | op :: ops => memRunState (memStep s op).1 ops

/-- The observable trace of a call sequence on the memory backend. -/
def memTrace (s : MemoryStorage) : List Op → List Res
  | [] => []
  | op :: ops => (memStep s op).2 :: memTrace (memStep s op).1 ops

/-- The Redis-backend state after a call sequence. -/
def redisRunState (s : RedisStorage) : List Op → RedisStorage
  | [] => s
  | op :: ops => redisRunState (redisStep s op).1 ops

/-- The observable trace of a call sequence on the Redis backend. -/
def redisTrace (s : RedisStorage) : List Op → List Res
  | [] => []
  | op :: ops => (redisStep s op).2 :: redisTrace (redisStep s op).1 ops

/-- A put is fresh when its (sessionID, index) pair is not currently stored. -/
def freshOk (s : MemoryStorage) : Op → Bool
  | .put f =>
      match lookupA f.sessionID s.frames with
      | none => true
      | some m => (lookupA f.index m).isNone
  | _ => true

/-- Every put in the sequence is fresh at the moment it executes
(memory-backend semantics drive the check). -/
def memFresh (s : MemoryStorage) : List Op → Bool
  | [] => true
  | op :: ops => freshOk s op && memFresh (memStep s op).1 ops

/-! ### Backend invariants and the simulation relation -/

/-- A session ID is tracked in `sessions` iff it keys the `frames` map. -/
def MemInv (s : MemoryStorage) : Prop :=
  ∀ sid, sid ∈ s.sessions ↔ (lookupA sid s.frames).isSome

/-- Every stored (index, frame) binding keys the frame by its own index,
and this is how `PutFrame` stores them. -/
def FrameCoherent (s : MemoryStorage) : Prop :=
  ∀ p ∈ s.frames, ∀ q ∈ p.2, q.2.index = q.1

/-- Well-formedness carried through every memory-backend run. -/
def MemWF (s : MemoryStorage) : Prop := MemInv s ∧ FrameCoherent s

/-- The Redis image of the memory backend's nested frame map: each
session's index-keyed map, in insertion order, as a frame list. -/
def framesAbs (frames : List (String × List (Int × Frame))) : List (String × List Frame) :=
  frames.map (fun p => (p.1, p.2.map Prod.snd))

/-- The simulation relation: the Redis key/value and set state is
exactly the image of the memory state. -/
def Sim (ms : MemoryStorage) (rs : RedisStorage) : Prop :=
  rs.kv = framesAbs ms.frames ∧ rs.activeSessions = ms.sessions

/-! ### Session registry (pkg/server/signaling.go) -/

/-- A wall-clock reading: `time.Time` as seconds plus nanoseconds. -/
structure GoTime where
  sec : Int
  nsec : Int
deriving Repr, DecidableEq

/-- `time.Time.Sub`: the elapsed duration in nanoseconds. -/
def GoTime.sub (a b : GoTime) : Int :=
  (a.sec - b.sec) * 1000000000 + (a.nsec - b.nsec)

/-- `SessionInfo`; `map[string]interface\x7b\x7d` metadata values are opaque
to the registry and modelled as strings. -/
structure SessionInfo where
  id : String
  createdAt : GoTime
  type : String
  metadata : List (String × String)
deriving Repr, DecidableEq

/-- `SessionManager`: the session map (mutex elided as before). -/
structure SessionManager where
  sessions : List (String × SessionInfo)
deriving Repr, DecidableEq

/-- `NewSessionManager`. -/
def smInit : SessionManager := { sessions := [] }

/-- `generateSessionID`: `"session_" + time.Now().Format("20060102150405")`.
The layout renders year through second, so the result is a function of
the wall-clock second alone; the rendering is modelled by printing that
second (what matters is that it is injective in `sec` and ignores
`nsec`). -/
def generateSessionID (now : GoTime) : String :=
  "session_" ++ toString now.sec

/-- `SessionManager.CreateSession`: builds the `SessionInfo` with a
generated ID and the current time, stores it under the write lock, and
returns it (the error result is always nil). -/
def SessionManager.createSession (sm : SessionManager) (now : GoTime)
    (sessionType : String) (metadata : List (String × String)) :
    SessionInfo × SessionManager :=
  let session : SessionInfo :=
    { id := generateSessionID now, createdAt := now, type := sessionType,
      metadata := metadata }
  (session, { sessions := updateAssoc session.id session sm.sessions })

/-- `SessionManager.GetSession`. -/
def SessionManager.getSession (sm : SessionManager) (sessionID : String) :
    Option SessionInfo :=
  lookupA sessionID sm.sessions

/-- `SessionManager.CleanupSession`: deletes the entry; an absent ID is
not an error. -/
def SessionManager.cleanupSession (sm : SessionManager) (sessionID : String) :
    SessionManager :=
  { sessions := eraseKey sessionID sm.sessions }

/-- The loop body of `cleanupExpiredSessions`: delete every entry whose
age `now.Sub(session.CreatedAt)` strictly exceeds `maxAge`. -/
def cleanupList (now : GoTime) (maxAge : Int) :
    List (String × SessionInfo) → List (String × SessionInfo)
  | [] => []
  | (id, info) :: rest =>
      if GoTime.sub now info.createdAt > maxAge then cleanupList now maxAge rest
      else (id, info) :: cleanupList now maxAge rest

/-- `SessionManager.cleanupExpiredSessions` — one reaper eviction scan. -/
def SessionManager.cleanupExpiredSessions (sm : SessionManager) (now : GoTime)
    (maxAge : Int) : SessionManager :=
  { sessions := cleanupList now maxAge sm.sessions }

/-- `SessionManager.GetActiveSessions`. -/
def SessionManager.getActiveSessions (sm : SessionManager) : List SessionInfo :=
  sm.sessions.map Prod.snd

/-! ### Plugin registry and lifecycle manager (pkg/plugins/pluginutil.go) -/

/-- `PluginType`. -/
inductive PluginType where
  | ingress
  | egress
  | transform
deriving Repr, DecidableEq

/-- Plugin configuration: an opaque map of named options. -/
abbrev Config := List (String × String)

/-- The slice of the `Plugin` interface the manager exercises: its
`Initialize` method (named `initFn` here, since that word is reserved),
which either succeeds or fails with a message. -/
structure Plugin where
  initFn : Config → Except String Unit

/-- `PluginFactory`. -/
def PluginFactory := Unit → Plugin

/-- The plugin error taxonomy, abstracting the `fmt.Errorf` formats of
pluginutil.go (wrapper errors keep their wrapped cause). -/
inductive PluginError where
  | notFound (kind : PluginType) (name : String)
  | alreadyRegistered (name : String)
  | createFailed (cause : PluginError)
  | initFailed (cause : String)
  | statusNotFound (name : String)
  | notRunning (name : String)
deriving Repr, DecidableEq

/-- `Registry`: (kind → (name → factory)). -/
structure Registry where
  plugins : List (PluginType × List (String × PluginFactory))

/-- `NewRegistry`. -/
def registryInit : Registry := { plugins := [] }

/-- `Registry.Register`: write-once per (kind, name); a nil inner map is
created on demand (observationally the same as reading it as empty). -/
def Registry.register (r : Registry) (pType : PluginType) (name : String)
    (factory : PluginFactory) : Registry × Except PluginError Unit :=
  match lookupA name ((lookupA pType r.plugins).getD []) with
  | some _ => (r, .error (.alreadyRegistered name))
  | none =>
      ({ plugins := updateAssoc pType
          (updateAssoc name factory ((lookupA pType r.plugins).getD []))
          r.plugins },
       .ok ())

/-- The factory stored for (kind, name), when any. -/
def Registry.find (r : Registry) (pType : PluginType) (name : String) :
    Option PluginFactory :=
  lookupA name ((lookupA pType r.plugins).getD [])

/-- `Registry.Create`: instantiate via the stored factory, or NotFound. -/
def Registry.create (r : Registry) (pType : PluginType) (name : String) :
    Except PluginError Plugin :=
  match lookupA pType r.plugins with
  | some factories =>
      match lookupA name factories with
      | some factory => .ok (factory ())
      | none => .error (.notFound pType name)
  | none => .error (.notFound pType name)

/-- `PluginStatus`. -/
structure PluginStatus where
  running : Bool
  startTime : GoTime
  lastError : Option String
deriving Repr, DecidableEq

/-- `PluginManager`: a registry plus the status ledger. -/
structure PluginManager where
  registry : Registry
  status : List (String × PluginStatus)

/-- `NewPluginManager`. -/
def pmInit (r : Registry) : PluginManager := { registry := r, status := [] }

/-- `PluginManager.StartPlugin`: create via the registry, initialize, and
only on success record `\x7brunning: true, startTime: now\x7d`; on failure the
wrapped error is returned and the status map is untouched. -/
def PluginManager.startPlugin (pm : PluginManager) (now : GoTime)
    (pType : PluginType) (name : String) (config : Config) :
    PluginManager × Except PluginError Unit :=
  match pm.registry.create pType name with
  | .error e => (pm, .error (.createFailed e))
  | .ok plugin =>
      match plugin.initFn config with
      | .error msg => (pm, .error (.initFailed msg))
      | .ok _ =>
          ({ pm with
             status := updateAssoc name
               { running := true, startTime := now, lastError := none } pm.status },
           .ok ())

/-- `PluginManager.GetPluginStatus`. -/
def PluginManager.getPluginStatus (pm : PluginManager) (name : String) :
    Except PluginError PluginStatus :=
  match lookupA name pm.status with
  | none => .error (.statusNotFound name)
  | some st => .ok st

/-- Apply a sequence of PutFrame calls to the memory backend. -/
def putAllMem (st : MemoryStorage) (fs : List Frame) : MemoryStorage :=
  fs.foldl MemoryStorage.putFrame st

/-- Apply a sequence of PutFrame calls to the Redis backend. -/
def putAllRedis (st : RedisStorage) (fs : List Frame) : RedisStorage :=
  fs.foldl RedisStorage.putFrame st

/-- The index-keyed map a session accumulates from a Put sequence. -/
def buildMap (m0 : List (Int × Frame)) (fs : List Frame) : List (Int × Frame) :=
  fs.foldl (fun m f => updateAssoc f.index f m) m0

/-- The data of the latest Put at index i in the sequence. -/
def lastPutAt (fs : List Frame) (i : Int) : Option Frame :=
  fs.foldl (fun acc f => if f.index = i then some f else acc) none

/-- What claim C3 grants the memory backend: ListFrames succeeds and
returns, in strictly ascending index order, exactly the latest Put for
each index that was Put. -/
def MemListFramesSpec (fs : List Frame) (s : String) : Prop :=
  ∃ r, (putAllMem memInit fs).listFrames s = .ok r ∧
    List.Pairwise (fun a b : Frame => a.index < b.index) r ∧
    (∀ f, f ∈ r ↔ lastPutAt fs f.index = some f)

/-- What claim C3 grants the Redis backend on duplicate-free input:
ListFrames succeeds and returns exactly the Put frames in strictly
ascending index order. -/
def RedisListFramesSpec (fs : List Frame) (s : String) : Prop :=
  ∃ r, (putAllRedis redisInit fs).listFrames s = .ok r ∧
    List.Pairwise (fun a b : Frame => a.index < b.index) r ∧
    (∀ f, f ∈ r ↔ f ∈ fs)

/-! ### Concrete inputs used by the claim checks -/

/-- Two frames sharing (sessionID, index) with different payloads. -/
def dupA : Frame := ⟨"s", 0, [1], 0, "video", "h264", true⟩

/-- The overwriting frame for the duplicate-put scenarios. -/
def dupB : Frame := ⟨"s", 0, [2], 0, "video", "h264", true⟩

/-- A call sequence with a repeated (sessionID, index) Put. -/
def dupOps : List Op := [.put dupA, .put dupB, .get "s" 0]

/-- Frames for the C3 witness, Put out of index order. -/
def w3a : Frame := ⟨"w3", 2, [7], 1, "video", "vp8", true⟩

/-- Second C3 witness frame, with the smaller index. -/
def w3b : Frame := ⟨"w3", 1, [8], 2, "video", "vp8", false⟩

/-- An expired registry entry for the C9 witness (created at t = 0s). -/
def infoOld : SessionInfo := ⟨"old", ⟨0, 0⟩, "webrtc", []⟩

/-- A still-fresh registry entry for the C9 witness (created at 90s). -/
def infoFresh : SessionInfo := ⟨"fresh", ⟨90, 0⟩, "rtsp", [("camera", "c1")]⟩

/-- A two-session registry for the C9 witness. -/
def smEx : SessionManager := ⟨[("old", infoOld), ("fresh", infoFresh)]⟩

/-- A duplicate-free call sequence exercising every operation kind. -/
def freshOps : List Op :=
  [.put ⟨"b", 0, [1], 0, "video", "h264", true⟩,
   .put ⟨"a", 1, [2], 5, "audio", "opus", false⟩,
   .put ⟨"b", 1, [3], 6, "video", "h264", false⟩,
   .get "b" 0, .get "b" 2, .get "c" 0,
   .listF "b", .listF "c", .listS,
   .del "a", .del "a", .listS]

/-- A plugin whose Initialize always succeeds (C7/C8 witnesses). -/
def plugOk : Plugin := ⟨fun _ => .ok ()⟩

/-- A plugin whose Initialize always fails (C7 witness). -/
def plugBad : Plugin := ⟨fun _ => .error "invalid config"⟩

/-- Factory for the always-succeeding plugin. -/
def facOk : PluginFactory := fun _ => plugOk

/-- Factory for the always-failing plugin. -/
def facBad : PluginFactory := fun _ => plugBad

/-- A registry holding one good and one bad ingress plugin. -/
def regEx : Registry := ⟨[(.ingress, [("camera", facOk), ("bad", facBad)])]⟩

/-- A plugin manager over `regEx` with an empty status ledger. -/
def pmEx : PluginManager := pmInit regEx

/-! ### Lemmas about the map primitives -/

theorem lookupA_updateAssoc_self {α β : Type} [DecidableEq α] (k : α) (v : β)
    (l : List (α × β)) : lookupA k (updateAssoc k v l) = some v := by
  induction l with
  | nil => simp [lookupA, updateAssoc]
  | cons p rest ih =>
      obtain ⟨k', v'⟩ := p
      by_cases h : k = k'
      · subst h; simp [lookupA, updateAssoc]
      · simp [lookupA, updateAssoc, h, ih]

theorem lookupA_updateAssoc_ne {α β : Type} [DecidableEq α] {k k' : α} (v : β)
    (l : List (α × β)) (h : k' ≠ k) :
    lookupA k' (updateAssoc k v l) = lookupA k' l := by
  induction l with
  | nil => simp [lookupA, updateAssoc, h]
  | cons p rest ih =>
      obtain ⟨k0, v0⟩ := p
      by_cases hk : k = k0
      · subst hk; simp [lookupA, updateAssoc, h]
      · simp only [updateAssoc, if_neg hk, lookupA]
        by_cases hk' : k' = k0
        · simp [hk']
        · simp [hk', ih]

theorem updateAssoc_of_lookupA_none {α β : Type} [DecidableEq α] {k : α} (v : β)
    {l : List (α × β)} (h : lookupA k l = none) :
    updateAssoc k v l = l ++ [(k, v)] := by
  induction l with
  | nil => simp [updateAssoc]
  | cons p rest ih =>
      obtain ⟨k0, v0⟩ := p
      by_cases hk : k = k0
      · subst hk; simp [lookupA] at h
      · simp only [lookupA, if_neg hk] at h
        simp [updateAssoc, hk, ih h]

theorem lookupA_append {α β : Type} [DecidableEq α] (k : α)
    (l1 l2 : List (α × β)) :
    lookupA k (l1 ++ l2) =
      (match lookupA k l1 with | some v => some v | none => lookupA k l2) := by
  induction l1 with
  | nil => simp [lookupA]
  | cons p rest ih =>
      obtain ⟨k0, v0⟩ := p
      by_cases hk : k = k0
      · simp [lookupA, hk]
      · simp [lookupA, hk, ih]

theorem lookupA_eraseKey_self {α β : Type} [DecidableEq α] (k : α)
    (l : List (α × β)) : lookupA k (eraseKey k l) = none := by
  induction l with
  | nil => simp [lookupA, eraseKey]
  | cons p rest ih =>
      obtain ⟨k0, v0⟩ := p
      by_cases hk : k0 = k
      · simp [eraseKey, hk, ih]
      · have : k ≠ k0 := fun h => hk h.symm
        simp [eraseKey, hk, lookupA, this, ih]

theorem lookupA_eraseKey_ne {α β : Type} [DecidableEq α] {k k' : α}
    (l : List (α × β)) (h : k' ≠ k) :
    lookupA k' (eraseKey k l) = lookupA k' l := by
  induction l with
  | nil => simp [eraseKey]
  | cons p rest ih =>
      obtain ⟨k0, v0⟩ := p
      by_cases hk : k0 = k
      · subst hk; simp [eraseKey, lookupA, h, ih]
      · by_cases hk' : k' = k0
        · simp [eraseKey, hk, lookupA, hk']
        · simp [eraseKey, hk, lookupA, hk', ih]

theorem lookupA_isSome_iff {α β : Type} [DecidableEq α] (k : α)
    (l : List (α × β)) : (lookupA k l).isSome ↔ k ∈ l.map Prod.fst := by
  induction l with
  | nil => simp [lookupA]
  | cons p rest ih =>
      obtain ⟨k0, v0⟩ := p
      by_cases hk : k = k0
      · simp [lookupA, hk]
      · simp [lookupA, hk, ih]

theorem mem_of_lookupA_eq_some {α β : Type} [DecidableEq α] {k : α} {v : β}
    {l : List (α × β)} (h : lookupA k l = some v) : (k, v) ∈ l := by
  induction l with
  | nil => simp [lookupA] at h
  | cons p rest ih =>
      obtain ⟨k0, v0⟩ := p
      by_cases hk : k = k0
      · subst hk
        simp [lookupA] at h
        subst h
        exact List.mem_cons_self _ _
      · simp only [lookupA, if_neg hk] at h
        exact List.mem_cons_of_mem _ (ih h)

theorem lookupA_eq_some_of_mem_nodup {α β : Type} [DecidableEq α] {k : α} {v : β}
    {l : List (α × β)} (hnd : (l.map Prod.fst).Nodup) (hm : (k, v) ∈ l) :
    lookupA k l = some v := by
  induction l with
  | nil => simp at hm
  | cons p rest ih =>
      obtain ⟨k0, v0⟩ := p
      simp only [List.map_cons, List.nodup_cons] at hnd
      rcases List.mem_cons.mp hm with heq | hmem
      · obtain ⟨h1, h2⟩ := Prod.mk.injEq .. ▸ congrArg id heq
        · simp_all [lookupA]
      · have hk : k ≠ k0 := by
          rintro rfl
          exact hnd.1 (List.mem_map.mpr ⟨(k, v), hmem, rfl⟩)
        simp [lookupA, hk, ih hnd.2 hmem]

theorem keys_updateAssoc_some {α β : Type} [DecidableEq α] {k : α} (v : β)
    {l : List (α × β)} (h : (lookupA k l).isSome) :
    (updateAssoc k v l).map Prod.fst = l.map Prod.fst := by
  induction l with
  | nil => simp [lookupA] at h
  | cons p rest ih =>
      obtain ⟨k0, v0⟩ := p
      by_cases hk : k = k0
      · subst hk; simp [updateAssoc]
      · simp only [lookupA, if_neg hk] at h
        simp [updateAssoc, hk, ih h]

theorem keys_updateAssoc_none {α β : Type} [DecidableEq α] {k : α} (v : β)
    {l : List (α × β)} (h : lookupA k l = none) :
    (updateAssoc k v l).map Prod.fst = l.map Prod.fst ++ [k] := by
  rw [updateAssoc_of_lookupA_none v h]; simp

theorem mem_updateAssoc {α β : Type} [DecidableEq α] {k : α} {v : β}
    {p : α × β} {l : List (α × β)} (hm : p ∈ updateAssoc k v l) :
    p ∈ l ∨ p = (k, v) := by
  induction l with
  | nil => simp [updateAssoc] at hm; exact Or.inr hm
  | cons q rest ih =>
      obtain ⟨k0, v0⟩ := q
      by_cases hk : k = k0
      · subst hk
        simp only [updateAssoc, if_pos rfl] at hm
        rcases List.mem_cons.mp hm with heq | hmem
        · exact Or.inr heq
        · exact Or.inl (List.mem_cons_of_mem _ hmem)
      · simp only [updateAssoc, if_neg hk] at hm
        rcases List.mem_cons.mp hm with heq | hmem
        · exact Or.inl (heq ▸ List.mem_cons_self _ _)
        · rcases ih hmem with h | h
          · exact Or.inl (List.mem_cons_of_mem _ h)
          · exact Or.inr h

theorem mem_sadd {α : Type} [DecidableEq α] (x y : α) (l : List α) :
    x ∈ sadd y l ↔ x = y ∨ x ∈ l := by
  by_cases h : y ∈ l
  · simp only [sadd, if_pos h]
    constructor
    · exact Or.inr
    · rintro (rfl | hx)
      · exact h
      · exact hx
  · simp only [sadd, if_neg h, List.mem_append, List.mem_singleton]
    tauto

theorem sadd_of_mem {α : Type} [DecidableEq α] {y : α} {l : List α} (h : y ∈ l) :
    sadd y l = l := by simp [sadd, h]

theorem nodup_sadd {α : Type} [DecidableEq α] (y : α) {l : List α}
    (h : l.Nodup) : (sadd y l).Nodup := by
  by_cases hy : y ∈ l
  · simpa [sadd, hy] using h
  · simp only [sadd, if_neg hy]
    refine List.Nodup.append h (List.nodup_singleton y) ?_
    intro a ha hb
    rw [List.mem_singleton] at hb
    exact hy (hb ▸ ha)

theorem mem_removeAll {α : Type} [DecidableEq α] (x y : α) (l : List α) :
    x ∈ removeAll y l ↔ x ∈ l ∧ x ≠ y := by
  induction l with
  | nil => simp [removeAll]
  | cons z rest ih =>
      by_cases hz : z = y
      · subst hz
        rw [removeAll, if_pos rfl]
        rw [ih]
        simp only [List.mem_cons]
        tauto
      · rw [removeAll, if_neg hz]
        simp only [List.mem_cons, ih]
        constructor
        · rintro (rfl | ⟨h1, h2⟩)
          · exact ⟨Or.inl rfl, hz⟩
          · exact ⟨Or.inr h1, h2⟩
        · rintro ⟨rfl | h1, h2⟩
          · exact Or.inl rfl
          · exact Or.inr ⟨h1, h2⟩

/-! ### Lemmas about the sorts -/

theorem strLEb_total (a b : List Char) : strLEb a b = true ∨ strLEb b a = true := by
  induction a generalizing b with
  | nil => exact Or.inl rfl
  | cons c cs ih =>
      cases b with
      | nil => exact Or.inr rfl
      | cons d ds =>
          rcases Nat.lt_trichotomy c.toNat d.toNat with h | h | h
          · left
            rw [strLEb, if_pos h]
          · rw [strLEb, if_neg (by omega), if_neg (by omega),
                strLEb, if_neg (by omega), if_neg (by omega)]
            exact ih ds
          · right
            rw [strLEb, if_pos h]

theorem strLEb_trans {a b c : List Char} (h1 : strLEb a b = true)
    (h2 : strLEb b c = true) : strLEb a c = true := by
  induction a generalizing b c with
  | nil => rfl
  | cons x xs ih =>
      cases b with
      | nil => simp [strLEb] at h1
      | cons y ys =>
          cases c with
          | nil => simp [strLEb] at h2
          | cons z zs =>
              rcases Nat.lt_trichotomy x.toNat y.toNat with hxy | hxy | hxy <;>
                rcases Nat.lt_trichotomy y.toNat z.toNat with hyz | hyz | hyz
              all_goals rw [strLEb] at h1 h2 ⊢
              all_goals first
                | (rw [if_pos (by omega)])
                | (rw [if_neg (by omega), if_pos (by omega)] at h1
                   exact absurd h1 (by simp))
                | (rw [if_neg (by omega), if_pos (by omega)] at h2
                   exact absurd h2 (by simp))
                | (rw [if_neg (by omega), if_neg (by omega)] at h1 h2 ⊢
                   exact ih h1 h2)

instance : IsTotal String strLE := ⟨fun a b => strLEb_total a.data b.data⟩

instance : IsTrans String strLE := ⟨fun _ _ _ h1 h2 => strLEb_trans h1 h2⟩


theorem sortFrames_perm (l : List Frame) : List.Perm (sortFrames l) l :=
  List.perm_insertionSort frameLE l

theorem sortFrames_sorted (l : List Frame) : List.Sorted frameLE (sortFrames l) :=
  List.sorted_insertionSort frameLE l

theorem mem_sortFrames (f : Frame) (l : List Frame) : f ∈ sortFrames l ↔ f ∈ l :=
  (sortFrames_perm l).mem_iff

theorem sortStrings_perm (l : List String) : List.Perm (sortStrings l) l :=
  List.perm_insertionSort _ l

theorem sortStrings_sorted (l : List String) :
    List.Sorted strLE (sortStrings l) :=
  List.sorted_insertionSort strLE l

theorem mem_sortStrings (x : String) (l : List String) :
    x ∈ sortStrings l ↔ x ∈ l :=
  (sortStrings_perm l).mem_iff

/-! ### Characterisations of the memory-backend operations -/

theorem putFrame_frames (s : MemoryStorage) (f : Frame) :
    (s.putFrame f).frames =
      updateAssoc f.sessionID
        (updateAssoc f.index f ((lookupA f.sessionID s.frames).getD []))
        s.frames := by
  unfold MemoryStorage.putFrame
  cases hl : lookupA f.sessionID s.frames <;> rfl

theorem putFrame_sessions_none {s : MemoryStorage} {f : Frame}
    (h : lookupA f.sessionID s.frames = none) :
    (s.putFrame f).sessions = sadd f.sessionID s.sessions := by
  unfold MemoryStorage.putFrame
  rw [h]

theorem putFrame_sessions_some {s : MemoryStorage} {f : Frame} {m}
    (h : lookupA f.sessionID s.frames = some m) :
    (s.putFrame f).sessions = s.sessions := by
  unfold MemoryStorage.putFrame
  rw [h]

theorem putFrame_frames_lookup_self (s : MemoryStorage) (f : Frame) :
    lookupA f.sessionID (s.putFrame f).frames =
      some (updateAssoc f.index f ((lookupA f.sessionID s.frames).getD [])) := by
  rw [putFrame_frames]
  exact lookupA_updateAssoc_self _ _ _

theorem putFrame_frames_lookup_ne (s : MemoryStorage) (f : Frame) {sid : String}
    (h : sid ≠ f.sessionID) :
    lookupA sid (s.putFrame f).frames = lookupA sid s.frames := by
  rw [putFrame_frames]
  exact lookupA_updateAssoc_ne _ _ h

theorem deleteSession_of_isSome {s : MemoryStorage} {sid : String}
    (h : (lookupA sid s.frames).isSome) :
    s.deleteSession sid =
      ({ frames := eraseKey sid s.frames,
         sessions := removeAll sid s.sessions }, .ok ()) := by
  unfold MemoryStorage.deleteSession
  cases hl : lookupA sid s.frames with
  | none => rw [hl] at h; simp at h
  | some m => rfl

theorem deleteSession_of_none {s : MemoryStorage} {sid : String}
    (h : lookupA sid s.frames = none) :
    s.deleteSession sid = (s, .error (.sessionNotFound sid)) := by
  unfold MemoryStorage.deleteSession
  rw [h]

theorem memStep_del_fst (s : MemoryStorage) (sid : String) :
    (memStep s (.del sid)).1 = (s.deleteSession sid).1 := by
  cases hd : s.deleteSession sid with
  | mk s' r => cases r <;> simp [memStep, hd]

/-! ### The session/frames invariant of the memory backend (C10) -/

theorem memInv_init : MemInv memInit := by
  intro sid
  simp [memInit, lookupA]

theorem putFrame_sessions_mem {s : MemoryStorage} (h : MemInv s) (f : Frame)
    (sid : String) :
    sid ∈ (s.putFrame f).sessions ↔ sid = f.sessionID ∨ sid ∈ s.sessions := by
  cases hl : lookupA f.sessionID s.frames with
  | none => rw [putFrame_sessions_none hl, mem_sadd]
  | some m =>
      rw [putFrame_sessions_some hl]
      constructor
      · exact Or.inr
      · rintro (rfl | hs)
        · rw [h f.sessionID, hl]; rfl
        · exact hs

theorem memInv_putFrame {s : MemoryStorage} (h : MemInv s) (f : Frame) :
    MemInv (s.putFrame f) := by
  intro sid
  by_cases hsid : sid = f.sessionID
  · subst hsid
    rw [putFrame_frames_lookup_self]
    simp [putFrame_sessions_mem h]
  · rw [putFrame_frames_lookup_ne s f hsid, putFrame_sessions_mem h f sid]
    simp [hsid, h sid]

theorem memInv_deleteSession {s : MemoryStorage} (h : MemInv s) (sid : String) :
    MemInv (s.deleteSession sid).1 := by
  cases hl : lookupA sid s.frames with
  | none => rw [deleteSession_of_none hl]; exact h
  | some m =>
      rw [deleteSession_of_isSome (by rw [hl]; rfl)]
      intro sid'
      by_cases hs : sid' = sid
      · subst hs
        simp [lookupA_eraseKey_self, mem_removeAll]
      · simp [lookupA_eraseKey_ne _ hs, mem_removeAll, hs, h sid']

theorem memInv_step {s : MemoryStorage} (h : MemInv s) (op : Op) :
    MemInv (memStep s op).1 := by
  cases op with
  | put f => exact memInv_putFrame h f
  | get sid i => exact h
  | listF sid => exact h
  | listS => exact h
  | del sid => rw [memStep_del_fst]; exact memInv_deleteSession h sid

theorem mem_eraseKey {α β : Type} [DecidableEq α] {k : α} {p : α × β}
    {l : List (α × β)} (h : p ∈ eraseKey k l) : p ∈ l := by
  induction l with
  | nil => simp [eraseKey] at h
  | cons q rest ih =>
      obtain ⟨k0, v0⟩ := q
      by_cases hk : k0 = k
      · rw [eraseKey, if_pos hk] at h
        exact List.mem_cons_of_mem _ (ih h)
      · rw [eraseKey, if_neg hk] at h
        rcases List.mem_cons.mp h with rfl | hm
        · exact List.mem_cons_self _ _
        · exact List.mem_cons_of_mem _ (ih hm)

theorem frameCoherent_init : FrameCoherent memInit := by
  intro p hp
  simp [memInit] at hp

theorem frameCoherent_putFrame {s : MemoryStorage} (h : FrameCoherent s)
    (f : Frame) : FrameCoherent (s.putFrame f) := by
  intro p hp q hq
  rw [putFrame_frames] at hp
  rcases mem_updateAssoc hp with hmem | rfl
  · exact h p hmem q hq
  · rcases mem_updateAssoc hq with hq' | rfl
    · cases hl : lookupA f.sessionID s.frames with
      | none => rw [hl] at hq'; simp at hq'
      | some m =>
          rw [hl] at hq'
          exact h (f.sessionID, m) (mem_of_lookupA_eq_some hl) q hq'
    · rfl

theorem frameCoherent_deleteSession {s : MemoryStorage} (h : FrameCoherent s)
    (sid : String) : FrameCoherent (s.deleteSession sid).1 := by
  cases hl : lookupA sid s.frames with
  | none => rw [deleteSession_of_none hl]; exact h
  | some m =>
      rw [deleteSession_of_isSome (by rw [hl]; rfl)]
      intro p hp q hq
      exact h p (mem_eraseKey hp) q hq

theorem memWF_init : MemWF memInit := ⟨memInv_init, frameCoherent_init⟩

theorem memWF_step {s : MemoryStorage} (h : MemWF s) (op : Op) :
    MemWF (memStep s op).1 := by
  obtain ⟨h1, h2⟩ := h
  refine ⟨memInv_step h1 op, ?_⟩
  cases op with
  | put f => exact frameCoherent_putFrame h2 f
  | get sid i => exact h2
  | listF sid => exact h2
  | listS => exact h2
  | del sid => rw [memStep_del_fst]; exact frameCoherent_deleteSession h2 sid

theorem memWF_run {s : MemoryStorage} (h : MemWF s) (ops : List Op) :
    MemWF (memRunState s ops) := by
  induction ops generalizing s with
  | nil => exact h
  | cons op ops ih => exact ih (memWF_step h op)

/-! ### Simulation between the two backends (C1) -/

theorem framesAbs_lookupA (sid : String) (l : List (String × List (Int × Frame))) :
    lookupA sid (framesAbs l) = (lookupA sid l).map (List.map Prod.snd) := by
  induction l with
  | nil => rfl
  | cons p rest ih =>
      obtain ⟨k0, m0⟩ := p
      by_cases hk : sid = k0
      · simp [framesAbs, lookupA, hk]
      · simp only [framesAbs, List.map_cons] at ih ⊢
        rw [lookupA, if_neg hk, lookupA, if_neg hk, ih]

theorem rpush_abs_none {frames : List (String × List (Int × Frame))} {sid : String}
    (f : Frame) (h : lookupA sid frames = none) :
    rpush sid f (framesAbs frames) = framesAbs frames ++ [(sid, [f])] := by
  induction frames with
  | nil => rfl
  | cons p rest ih =>
      obtain ⟨k0, m0⟩ := p
      by_cases hk : sid = k0
      · simp [lookupA, hk] at h
      · rw [lookupA, if_neg hk] at h
        simp only [framesAbs, List.map_cons] at ih ⊢
        rw [rpush, if_neg hk, ih h]
        simp

theorem rpush_abs_some {frames : List (String × List (Int × Frame))} {sid : String}
    {m : List (Int × Frame)} (i : Int) (f : Frame)
    (h : lookupA sid frames = some m) :
    rpush sid f (framesAbs frames) = framesAbs (updateAssoc sid (m ++ [(i, f)]) frames) := by
  induction frames with
  | nil => simp [lookupA] at h
  | cons p rest ih =>
      obtain ⟨k0, m0⟩ := p
      by_cases hk : sid = k0
      · subst hk
        rw [lookupA, if_pos rfl] at h
        cases h
        simp only [framesAbs, List.map_cons]
        rw [rpush, if_pos rfl, updateAssoc, if_pos rfl]
        simp [framesAbs]
      · rw [lookupA, if_neg hk] at h
        simp only [framesAbs, List.map_cons]
        rw [rpush, if_neg hk, updateAssoc, if_neg hk]
        simp only [framesAbs, List.map_cons] at ih
        rw [ih h]
        simp [framesAbs]

theorem framesAbs_eraseKey (sid : String) (l : List (String × List (Int × Frame))) :
    eraseKey sid (framesAbs l) = framesAbs (eraseKey sid l) := by
  induction l with
  | nil => rfl
  | cons p rest ih =>
      obtain ⟨k0, m0⟩ := p
      by_cases hk : k0 = sid
      · simp only [framesAbs, List.map_cons]
        rw [eraseKey, if_pos hk, eraseKey, if_pos hk]
        exact ih
      · simp only [framesAbs, List.map_cons]
        rw [eraseKey, if_neg hk, eraseKey, if_neg hk]
        simp only [framesAbs, List.map_cons] at ih
        rw [ih]
        rfl

theorem findFrame_map_snd {m : List (Int × Frame)} (i : Int)
    (coh : ∀ q ∈ m, q.2.index = q.1) :
    findFrame i (m.map Prod.snd) = lookupA i m := by
  induction m with
  | nil => rfl
  | cons q rest ih =>
      obtain ⟨j, g⟩ := q
      have hg : g.index = j := coh (j, g) (List.mem_cons_self _ _)
      have ihr := ih (fun q hq => coh q (List.mem_cons_of_mem _ hq))
      simp only [List.map_cons]
      by_cases hij : i = j
      · rw [findFrame, if_pos (by rw [hg, hij]), lookupA, if_pos hij]
      · rw [findFrame, if_neg (by rw [hg]; exact fun hc => hij hc.symm),
           lookupA, if_neg hij, ihr]

/-- One-step simulation: on related, well-formed states, a fresh
operation produces the same observable result on the two backends and
leaves them related. -/
theorem stepSim {ms : MemoryStorage} {rs : RedisStorage} (hS : Sim ms rs)
    (hW : MemWF ms) (op : Op) (hF : freshOk ms op = true) :
    (redisStep rs op).2 = (memStep ms op).2 ∧
    Sim (memStep ms op).1 (redisStep rs op).1 := by
  obtain ⟨hkv, hset⟩ := hS
  obtain ⟨hInv, hCoh⟩ := hW
  cases op with
  | put f =>
      refine ⟨rfl, ?_, ?_⟩
      · show rpush f.sessionID f rs.kv = framesAbs (ms.putFrame f).frames
        rw [hkv, putFrame_frames]
        cases hl : lookupA f.sessionID ms.frames with
        | none =>
            simp only [Option.getD_none]
            rw [rpush_abs_none f hl, updateAssoc_of_lookupA_none _ hl]
            simp [framesAbs, updateAssoc]
        | some m =>
            have hfresh : lookupA f.index m = none := by
              rw [freshOk, hl] at hF
              exact Option.isNone_iff_eq_none.mp hF
            simp only [Option.getD_some]
            rw [updateAssoc_of_lookupA_none f hfresh]
            exact rpush_abs_some f.index f hl
      · show sadd f.sessionID rs.activeSessions = (ms.putFrame f).sessions
        rw [hset]
        cases hl : lookupA f.sessionID ms.frames with
        | none => rw [putFrame_sessions_none hl]
        | some m =>
            rw [putFrame_sessions_some hl]
            exact sadd_of_mem ((hInv f.sessionID).mpr (by rw [hl]; rfl))
  | get sid i =>
      refine ⟨?_, hkv, hset⟩
      show (match rs.getFrame sid i with
            | .ok f => Res.okFrame f
            | .error e => Res.err e) =
           (match ms.getFrame sid i with
            | .ok f => Res.okFrame f
            | .error e => Res.err e)
      unfold RedisStorage.getFrame MemoryStorage.getFrame
      cases hl : lookupA sid ms.frames with
      | none =>
          have hmem : sid ∉ rs.activeSessions := by
            rw [hset, hInv sid, hl]
            simp
          rw [if_neg hmem]
      | some m =>
          have hmem : sid ∈ rs.activeSessions := by
            rw [hset]
            exact (hInv sid).mpr (by rw [hl]; rfl)
          rw [if_pos hmem, hkv, framesAbs_lookupA, hl]
          show (match (match findFrame i (m.map Prod.snd) with
                       | some frame => Except.ok frame
                       | none => Except.error (StorageError.frameNotFound sid i)) with
                | .ok f => Res.okFrame f
                | .error e => Res.err e) = _
          rw [findFrame_map_snd i (hCoh (sid, m) (mem_of_lookupA_eq_some hl))]
          cases hli : lookupA i m <;> simp [hli]
  | listF sid =>
      refine ⟨?_, hkv, hset⟩
      show (match rs.listFrames sid with
            | .ok l => Res.okFrames l
            | .error e => Res.err e) =
           (match ms.listFrames sid with
            | .ok l => Res.okFrames l
            | .error e => Res.err e)
      unfold RedisStorage.listFrames MemoryStorage.listFrames
      cases hl : lookupA sid ms.frames with
      | none =>
          have hmem : sid ∉ rs.activeSessions := by
            rw [hset, hInv sid, hl]
            simp
          rw [if_neg hmem]
      | some m =>
          have hmem : sid ∈ rs.activeSessions := by
            rw [hset]
            exact (hInv sid).mpr (by rw [hl]; rfl)
          rw [if_pos hmem, hkv, framesAbs_lookupA, hl]
          rfl
  | listS =>
      refine ⟨?_, hkv, hset⟩
      show Res.okSessions rs.listSessions = Res.okSessions ms.listSessions
      unfold RedisStorage.listSessions MemoryStorage.listSessions
      rw [hset]
  | del sid =>
      cases hl : lookupA sid ms.frames with
      | none =>
          have hmem : sid ∉ rs.activeSessions := by
            rw [hset, hInv sid, hl]
            simp
          have hmm : ms.deleteSession sid = (ms, .error (.sessionNotFound sid)) :=
            deleteSession_of_none hl
          have hrr : rs.deleteSession sid = (rs, .error (.sessionNotFound sid)) := by
            unfold RedisStorage.deleteSession
            rw [if_neg hmem]
          refine ⟨?_, ?_, ?_⟩
          · show (redisStep rs (.del sid)).2 = (memStep ms (.del sid)).2
            simp [memStep, redisStep, hmm, hrr]
          · show (redisStep rs (.del sid)).1.kv = framesAbs (memStep ms (.del sid)).1.frames
            simp [memStep, redisStep, hmm, hrr, hkv]
          · show (redisStep rs (.del sid)).1.activeSessions = (memStep ms (.del sid)).1.sessions
            simp [memStep, redisStep, hmm, hrr, hset]
      | some m =>
          have hmem : sid ∈ rs.activeSessions := by
            rw [hset]
            exact (hInv sid).mpr (by rw [hl]; rfl)
          have hmm := @deleteSession_of_isSome ms sid (by rw [hl]; rfl)
          have hrr : rs.deleteSession sid =
              ({ kv := eraseKey sid rs.kv,
                 activeSessions := removeAll sid rs.activeSessions }, .ok ()) := by
            unfold RedisStorage.deleteSession
            rw [if_pos hmem]
          refine ⟨?_, ?_, ?_⟩
          · simp [memStep, redisStep, hmm, hrr]
          · show (redisStep rs (.del sid)).1.kv = framesAbs (memStep ms (.del sid)).1.frames
            simp only [memStep, redisStep, hmm, hrr]
            rw [hkv]
            exact framesAbs_eraseKey sid ms.frames
          · show (redisStep rs (.del sid)).1.activeSessions = (memStep ms (.del sid)).1.sessions
            simp only [memStep, redisStep, hmm, hrr]
            rw [hset]

/-- Trace-level simulation for fresh call sequences. -/
theorem simRun {ms : MemoryStorage} {rs : RedisStorage} (hS : Sim ms rs)
    (hW : MemWF ms) (ops : List Op) (hF : memFresh ms ops = true) :
    redisTrace rs ops = memTrace ms ops ∧
    Sim (memRunState ms ops) (redisRunState rs ops) := by
  induction ops generalizing ms rs with
  | nil => exact ⟨rfl, hS⟩
  | cons op ops ih =>
      rw [memFresh, Bool.and_eq_true] at hF
      obtain ⟨hr, hsim⟩ := stepSim hS hW op hF.1
      obtain ⟨ht, hs2⟩ := ih hsim (memWF_step hW op) hF.2
      exact ⟨by rw [redisTrace, memTrace, hr, ht], hs2⟩

theorem getFrame_of_lookup_some {s : MemoryStorage} {sid : String}
    {m : List (Int × Frame)} (i : Int) (h : lookupA sid s.frames = some m) :
    s.getFrame sid i =
      (match lookupA i m with
       | none => .error (.frameNotFound sid i)
       | some f => .ok f) := by
  unfold MemoryStorage.getFrame
  rw [h]

/-! ### Redis list lemmas -/

theorem lookupA_rpush_self (k : String) (f : Frame) (l : List (String × List Frame)) :
    lookupA k (rpush k f l) = some ((lookupA k l).getD [] ++ [f]) := by
  induction l with
  | nil => simp [rpush, lookupA]
  | cons p rest ih =>
      obtain ⟨k0, l0⟩ := p
      by_cases hk : k = k0
      · subst hk
        rw [rpush, if_pos rfl, lookupA, if_pos rfl, lookupA, if_pos rfl]
        rfl
      · rw [rpush, if_neg hk, lookupA, if_neg hk, lookupA, if_neg hk, ih]

theorem findFrame_append_of_none {l1 : List Frame} {i : Int}
    (h : ∀ g ∈ l1, g.index ≠ i) (l2 : List Frame) :
    findFrame i (l1 ++ l2) = findFrame i l2 := by
  induction l1 with
  | nil => rfl
  | cons g rest ih =>
      rw [List.cons_append, findFrame,
          if_neg (h g (List.mem_cons_self _ _)),
          ih (fun g' hg' => h g' (List.mem_cons_of_mem _ hg'))]

/-! ### Put-sequence lemmas -/

theorem putAllMem_lookup {s : String} (fs : List Frame) (st : MemoryStorage)
    (hall : ∀ f ∈ fs, f.sessionID = s) (hne : fs ≠ []) :
    lookupA s (putAllMem st fs).frames =
      some (buildMap ((lookupA s st.frames).getD []) fs) := by
  induction fs generalizing st with
  | nil => cases hne rfl
  | cons f fs ih =>
      have hf : f.sessionID = s := hall f (List.mem_cons_self _ _)
      have hst : lookupA s (st.putFrame f).frames =
          some (updateAssoc f.index f ((lookupA s st.frames).getD [])) := by
        rw [← hf]
        exact putFrame_frames_lookup_self st f
      cases fs with
      | nil =>
          show lookupA s (st.putFrame f).frames = _
          rw [hst]
          rfl
      | cons g gs =>
          have htail : ∀ x ∈ g :: gs, x.sessionID = s :=
            fun x hx => hall x (List.mem_cons_of_mem _ hx)
          have h2 := ih (st.putFrame f) htail (by simp)
          rw [hst, Option.getD_some] at h2
          exact h2

theorem buildMap_keys_nodup (fs : List Frame) (m0 : List (Int × Frame))
    (h : (m0.map Prod.fst).Nodup) : ((buildMap m0 fs).map Prod.fst).Nodup := by
  induction fs generalizing m0 with
  | nil => exact h
  | cons f fs ih =>
      show ((buildMap (updateAssoc f.index f m0) fs).map Prod.fst).Nodup
      refine ih _ ?_
      cases hl : lookupA f.index m0 with
      | none =>
          rw [keys_updateAssoc_none f hl]
          have hni : f.index ∉ m0.map Prod.fst := by
            rw [← lookupA_isSome_iff, hl]
            simp
          simp [List.nodup_append, h, hni]
      | some v =>
          rw [keys_updateAssoc_some f (by rw [hl]; rfl)]
          exact h

theorem buildMap_mem {fs : List Frame} {m0 : List (Int × Frame)}
    {q : Int × Frame} (h : q ∈ buildMap m0 fs) :
    q ∈ m0 ∨ (q.2 ∈ fs ∧ q.2.index = q.1) := by
  induction fs generalizing m0 with
  | nil => exact Or.inl h
  | cons f fs ih =>
      rcases ih (show q ∈ buildMap (updateAssoc f.index f m0) fs from h) with hm | hm
      · rcases mem_updateAssoc hm with hm0 | rfl
        · exact Or.inl hm0
        · exact Or.inr ⟨List.mem_cons_self _ _, rfl⟩
      · exact Or.inr ⟨List.mem_cons_of_mem _ hm.1, hm.2⟩

theorem buildMap_lookup (fs : List Frame) (m0 : List (Int × Frame)) (i : Int) :
    lookupA i (buildMap m0 fs) =
      fs.foldl (fun acc f => if f.index = i then some f else acc) (lookupA i m0) := by
  induction fs generalizing m0 with
  | nil => rfl
  | cons f fs ih =>
      show lookupA i (buildMap (updateAssoc f.index f m0) fs) = _
      rw [ih]
      by_cases hif : f.index = i
      · subst hif
        rw [lookupA_updateAssoc_self]
        show _ = List.foldl _ (if f.index = f.index then some f else lookupA f.index m0) fs
        rw [if_pos rfl]
      · rw [lookupA_updateAssoc_ne _ _ (fun hc => hif hc.symm)]
        show _ = List.foldl _ (if f.index = i then some f else lookupA i m0) fs
        rw [if_neg hif]

theorem buildMap_lookup_lastPutAt (fs : List Frame) (i : Int) :
    lookupA i (buildMap [] fs) = lastPutAt fs i :=
  buildMap_lookup fs [] i

theorem putAllRedis_lookup {s : String} (fs : List Frame) (st : RedisStorage)
    (hall : ∀ f ∈ fs, f.sessionID = s) (hne : fs ≠ []) :
    lookupA s (putAllRedis st fs).kv =
      some ((lookupA s st.kv).getD [] ++ fs) := by
  induction fs generalizing st with
  | nil => cases hne rfl
  | cons f fs ih =>
      have hf : f.sessionID = s := hall f (List.mem_cons_self _ _)
      have hst : lookupA s (st.putFrame f).kv =
          some ((lookupA s st.kv).getD [] ++ [f]) := by
        show lookupA s (rpush f.sessionID f st.kv) = _
        rw [hf, lookupA_rpush_self]
      cases fs with
      | nil =>
          show lookupA s (st.putFrame f).kv = _
          rw [hst]
      | cons g gs =>
          have htail : ∀ x ∈ g :: gs, x.sessionID = s :=
            fun x hx => hall x (List.mem_cons_of_mem _ hx)
          have h2 := ih (st.putFrame f) htail (by simp)
          rw [hst, Option.getD_some, List.append_assoc] at h2
          exact h2

theorem putAllRedis_active_mem (fs : List Frame) (st : RedisStorage) (x : String) :
    x ∈ (putAllRedis st fs).activeSessions ↔
      x ∈ st.activeSessions ∨ x ∈ fs.map Frame.sessionID := by
  induction fs generalizing st with
  | nil => simp [putAllRedis]
  | cons f fs ih =>
      show x ∈ (putAllRedis (st.putFrame f) fs).activeSessions ↔ _
      rw [ih]
      show x ∈ sadd f.sessionID st.activeSessions ∨ _ ↔ _
      rw [mem_sadd]
      simp only [List.map_cons, List.mem_cons]
      tauto

/-! ### Claim C1 -/

/-- Claim C1, counterexample: from the empty state, the sequence
Put (s,0,[1]); Put (s,0,[2]); Get (s,0) produces different observable
traces on the two backends — memory answers the Get with the second
frame, Redis with the first — so the backends are not observationally
equivalent on arbitrary operation sequences. -/
theorem mem_redis_trace_diverges_on_duplicate_put :
    memTrace memInit dupOps ≠ redisTrace redisInit dupOps := by decide

/-- Claim C1 (amended): for every sequence of Frame Store operations
(PutFrame, GetFrame, ListFrames, ListSessions, DeleteSession) applied
from the empty state in which no PutFrame reuses a (sessionID, index)
pair currently stored, the volatile and the Redis backend produce
observably identical results: the same success/error outcome and the
same returned frames, frame lists and session lists at every step. -/
theorem mem_redis_equiv_of_fresh (ops : List Op)
    (h : memFresh memInit ops = true) :
    memTrace memInit ops = redisTrace redisInit ops :=
  ((simRun ⟨rfl, rfl⟩ memWF_init ops h).1).symm

/-- Witness for the amended C1: the equivalence theorem applied to a
concrete duplicate-free sequence with puts, gets, lists and deletes. -/
theorem mem_redis_equiv_of_fresh_witness :
    memFresh memInit freshOps = true ∧
    memTrace memInit freshOps = redisTrace redisInit freshOps :=
  ⟨by decide, mem_redis_equiv_of_fresh freshOps (by decide)⟩

/-! ### Claim C10 -/

/-- Claim C10: starting from NewMemoryStorage, after every sequence of
store operations — and still after a final Close, which does not touch
the maps — a session ID is in the sessions set iff it keys the frames
map, so the store never exposes a partially present session. -/
theorem memory_sessions_frames_invariant (ops : List Op) :
    MemInv (memRunState memInit ops) ∧
    MemInv ((memRunState memInit ops).close).1 :=
  ⟨(memWF_run memWF_init ops).1, (memWF_run memWF_init ops).1⟩

/-! ### Claim C2 -/

/-- Claim C2, counterexample: Put (s,0,[1]) then Put (s,0,[2]) from
empty stores; GetFrame(s,0) returns the second frame on memory but the
first on Redis, and the frames differ, so the overwrite property does
not hold on both backends. -/
theorem get_after_duplicate_put_backends_differ :
    ((memInit.putFrame dupA).putFrame dupB).getFrame "s" 0 = .ok dupB ∧
    ((redisInit.putFrame dupA).putFrame dupB).getFrame "s" 0 = .ok dupA ∧
    dupA ≠ dupB := by decide

/-- Claim C2 (amended): after PutFrame(f1) then PutFrame(f2) with the
same (sessionID, index), the memory backend's GetFrame returns f2 from
any prior state — the later Put overwrites — while the Redis backend's
GetFrame returns f1, the earliest frame stored at that index, whenever
its list for that session held no frame with that index beforehand
(Redis appends instead of overwriting and its Get scans in append
order).  The two backends agree exactly when f1 = f2, so repeating an
identical Put is Get-idempotent on both. -/
theorem get_after_double_put (ms : MemoryStorage) (rs : RedisStorage)
    (f1 f2 : Frame) (hsid : f2.sessionID = f1.sessionID)
    (hidx : f2.index = f1.index) :
    ((ms.putFrame f1).putFrame f2).getFrame f1.sessionID f1.index = .ok f2 ∧
    ((∀ g ∈ (lookupA f1.sessionID rs.kv).getD [], g.index ≠ f1.index) →
      ((rs.putFrame f1).putFrame f2).getFrame f1.sessionID f1.index = .ok f1) := by
  constructor
  · have h1 : lookupA f1.sessionID ((ms.putFrame f1).putFrame f2).frames =
        some (updateAssoc f2.index f2
          ((lookupA f2.sessionID (ms.putFrame f1).frames).getD [])) := by
      rw [← hsid]
      exact putFrame_frames_lookup_self _ f2
    rw [getFrame_of_lookup_some f1.index h1, ← hidx, lookupA_updateAssoc_self]
  · intro hno
    unfold RedisStorage.getFrame
    have hmem : f1.sessionID ∈ ((rs.putFrame f1).putFrame f2).activeSessions := by
      show f1.sessionID ∈ sadd f2.sessionID (sadd f1.sessionID rs.activeSessions)
      rw [mem_sadd, hsid]
      exact Or.inl rfl
    rw [if_pos hmem]
    have hkv : lookupA f1.sessionID ((rs.putFrame f1).putFrame f2).kv =
        some (((lookupA f1.sessionID rs.kv).getD [] ++ [f1]) ++ [f2]) := by
      show lookupA f1.sessionID (rpush f2.sessionID f2 (rpush f1.sessionID f1 rs.kv)) = _
      rw [hsid, lookupA_rpush_self, lookupA_rpush_self, Option.getD_some]
    rw [hkv, Option.getD_some, List.append_assoc, findFrame_append_of_none hno,
        List.singleton_append, findFrame, if_pos rfl]

/-- Witness for the amended C2 at the concrete duplicate pair. -/
theorem get_after_double_put_witness :
    dupB.sessionID = dupA.sessionID ∧ dupB.index = dupA.index ∧
    ((memInit.putFrame dupA).putFrame dupB).getFrame dupA.sessionID dupA.index = .ok dupB ∧
    ((redisInit.putFrame dupA).putFrame dupB).getFrame dupA.sessionID dupA.index = .ok dupA :=
  ⟨by decide, by decide,
   (get_after_double_put memInit redisInit dupA dupB (by decide) (by decide)).1,
   (get_after_double_put memInit redisInit dupA dupB (by decide) (by decide)).2
     (by decide)⟩

theorem pairwise_lt_of_sorted_nodup {l : List Frame}
    (hs : List.Sorted frameLE l) (hn : (l.map Frame.index).Nodup) :
    List.Pairwise (fun a b : Frame => a.index < b.index) l := by
  have hne : List.Pairwise (fun a b : Frame => a.index ≠ b.index) l :=
    List.pairwise_map.mp hn
  exact (hs.and hne).imp (fun h => lt_of_le_of_ne h.1 h.2)

/-! ### Claim C3 -/

/-- Claim C3, counterexample: after Put (s,0,[1]); Put (s,0,[2]) — one
distinct index — Redis ListFrames returns two frames, not one; and with
zero Puts, ListFrames(s) is a NotFound error on both backends rather
than an empty frame list. -/
theorem listFrames_duplicate_and_empty_counterexample :
    ((putAllRedis redisInit [dupA, dupB]).listFrames "s").map List.length = .ok 2 ∧
    memInit.listFrames "s" = .error (.sessionNotFound "s") ∧
    redisInit.listFrames "s" = .error (.sessionNotFound "s") := by decide

/-- Claim C3 (amended): for every nonempty sequence of PutFrame calls
for one session s, the memory backend's ListFrames(s) returns exactly
one frame per distinct index that was Put, each carrying the data of the
latest Put for that index, sorted in strictly ascending index order.
The Redis backend satisfies this provided the Puts use pairwise-distinct
indices; a repeated index instead yields one list entry per Put. -/
theorem listFrames_latest_sorted (fs : List Frame) (s : String)
    (hne : fs ≠ []) (hall : ∀ f ∈ fs, f.sessionID = s) :
    MemListFramesSpec fs s ∧
    ((fs.map Frame.index).Nodup → RedisListFramesSpec fs s) := by
  constructor
  · have hlk : lookupA s (putAllMem memInit fs).frames = some (buildMap [] fs) := by
      have h := putAllMem_lookup fs memInit hall hne
      simpa [memInit, lookupA] using h
    have hcoh : ∀ q ∈ buildMap ([] : List (Int × Frame)) fs, q.2.index = q.1 := by
      intro q hq
      rcases buildMap_mem hq with hq0 | hq1
      · simp at hq0
      · exact hq1.2
    have hkeys : ((buildMap ([] : List (Int × Frame)) fs).map Prod.fst).Nodup :=
      buildMap_keys_nodup fs [] (by simp)
    have hidx : ((buildMap ([] : List (Int × Frame)) fs).map Prod.snd).map Frame.index =
        (buildMap ([] : List (Int × Frame)) fs).map Prod.fst := by
      rw [List.map_map]
      exact List.map_congr_left hcoh
    refine ⟨sortFrames ((buildMap [] fs).map Prod.snd), ?_, ?_, ?_⟩
    · unfold MemoryStorage.listFrames
      rw [hlk]
    · refine pairwise_lt_of_sorted_nodup (sortFrames_sorted _) ?_
      have hperm : List.Perm
          ((sortFrames ((buildMap [] fs).map Prod.snd)).map Frame.index)
          (((buildMap ([] : List (Int × Frame)) fs).map Prod.snd).map Frame.index) :=
        (sortFrames_perm _).map Frame.index
      rw [hperm.nodup_iff, hidx]
      exact hkeys
    · intro f
      rw [mem_sortFrames]
      constructor
      · intro hf
        obtain ⟨q, hqM, rfl⟩ := List.mem_map.mp hf
        have hq : q.2.index = q.1 := hcoh q hqM
        have hlkq : lookupA q.1 (buildMap [] fs) = some q.2 :=
          lookupA_eq_some_of_mem_nodup hkeys hqM
        rw [← hq, buildMap_lookup_lastPutAt] at hlkq
        exact hlkq
      · intro hf
        rw [← buildMap_lookup_lastPutAt] at hf
        exact List.mem_map.mpr ⟨(f.index, f), mem_of_lookupA_eq_some hf, rfl⟩
  · intro hnd
    have hs : s ∈ (putAllRedis redisInit fs).activeSessions := by
      obtain ⟨f, fs3, rfl⟩ := List.exists_cons_of_ne_nil hne
      rw [putAllRedis_active_mem]
      exact Or.inr (List.mem_map.mpr ⟨f, List.mem_cons_self _ _,
        hall f (List.mem_cons_self _ _)⟩)
    have hkv : lookupA s (putAllRedis redisInit fs).kv = some fs := by
      have h := putAllRedis_lookup fs redisInit hall hne
      simpa [redisInit, lookupA] using h
    refine ⟨sortFrames fs, ?_, ?_, ?_⟩
    · unfold RedisStorage.listFrames
      rw [if_pos hs, hkv]
      rfl
    · refine pairwise_lt_of_sorted_nodup (sortFrames_sorted _) ?_
      have hperm : List.Perm ((sortFrames fs).map Frame.index) (fs.map Frame.index) :=
        (sortFrames_perm fs).map Frame.index
      rw [hperm.nodup_iff]
      exact hnd
    · intro f
      exact mem_sortFrames f fs

/-- Witness for the amended C3 at a concrete out-of-order, duplicate-free
Put sequence for session w3. -/
theorem listFrames_latest_sorted_witness :
    ([w3a, w3b] ≠ ([] : List Frame)) ∧
    (∀ f ∈ [w3a, w3b], f.sessionID = "w3") ∧
    (([w3a, w3b].map Frame.index).Nodup) ∧
    MemListFramesSpec [w3a, w3b] "w3" ∧
    RedisListFramesSpec [w3a, w3b] "w3" :=
  ⟨by decide, by decide, by decide,
   (listFrames_latest_sorted [w3a, w3b] "w3" (by decide) (by decide)).1,
   (listFrames_latest_sorted [w3a, w3b] "w3" (by decide) (by decide)).2 (by decide)⟩

/-! ### Claim C5 -/

theorem putFrame_sessions_eq {st : MemoryStorage} (hInv : MemInv st) (f : Frame) :
    (st.putFrame f).sessions = sadd f.sessionID st.sessions := by
  cases hl : lookupA f.sessionID st.frames with
  | none => exact putFrame_sessions_none hl
  | some m =>
      rw [putFrame_sessions_some hl,
          sadd_of_mem ((hInv f.sessionID).mpr (by rw [hl]; rfl))]

theorem putAll_sessions_eq (fs : List Frame) {st : MemoryStorage}
    {rt : RedisStorage} (hInv : MemInv st)
    (he : st.sessions = rt.activeSessions) :
    (putAllMem st fs).sessions = (putAllRedis rt fs).activeSessions := by
  induction fs generalizing st rt with
  | nil => exact he
  | cons f fs ih =>
      refine ih (memInv_putFrame hInv f) ?_
      rw [putFrame_sessions_eq hInv f, he]
      rfl

theorem putAllRedis_active_nodup (fs : List Frame) {rt : RedisStorage}
    (h : rt.activeSessions.Nodup) : (putAllRedis rt fs).activeSessions.Nodup := by
  induction fs generalizing rt with
  | nil => exact h
  | cons f fs ih => exact ih (nodup_sadd _ h)

/-- Claim C5: after every sequence of PutFrame calls from the empty
stores (and no DeleteSession), ListSessions returns the same list on
both backends: exactly the distinct session IDs that were Put, with no
duplicates, sorted in ascending lexicographic order — so every
successful PutFrame registers its session as active. -/
theorem listSessions_after_puts (fs : List Frame) :
    (putAllMem memInit fs).listSessions = (putAllRedis redisInit fs).listSessions ∧
    List.Sorted strLE ((putAllMem memInit fs).listSessions) ∧
    ((putAllMem memInit fs).listSessions).Nodup ∧
    (∀ sid, sid ∈ (putAllMem memInit fs).listSessions ↔
      sid ∈ fs.map Frame.sessionID) := by
  have heq : (putAllMem memInit fs).sessions =
      (putAllRedis redisInit fs).activeSessions :=
    putAll_sessions_eq fs memInv_init rfl
  refine ⟨?_, ?_, ?_, ?_⟩
  · show sortStrings (putAllMem memInit fs).sessions =
      sortStrings (putAllRedis redisInit fs).activeSessions
    rw [heq]
  · exact sortStrings_sorted _
  · refine (sortStrings_perm _).nodup_iff.mpr ?_
    rw [heq]
    exact putAllRedis_active_nodup fs (by simp [redisInit])
  · intro sid
    show sid ∈ sortStrings (putAllMem memInit fs).sessions ↔ _
    rw [mem_sortStrings, heq, putAllRedis_active_mem]
    simp [redisInit]

/-! ### Claim C6 -/

/-- Claim C6: for a session present in the store, DeleteSession succeeds,
after which GetFrame(s, i) for every i and ListFrames(s) return the
session-not-found error, s is absent from ListSessions, and a second
DeleteSession (with no intervening Put) returns the same NotFound error.
Both backends. -/
theorem deleteSession_removes_session :
    (∀ (ms : MemoryStorage) (sid : String), (lookupA sid ms.frames).isSome →
      (ms.deleteSession sid).2 = .ok () ∧
      (∀ i, (ms.deleteSession sid).1.getFrame sid i =
        .error (.sessionNotFound sid)) ∧
      (ms.deleteSession sid).1.listFrames sid = .error (.sessionNotFound sid) ∧
      sid ∉ (ms.deleteSession sid).1.listSessions ∧
      ((ms.deleteSession sid).1.deleteSession sid).2 =
        .error (.sessionNotFound sid)) ∧
    (∀ (rs : RedisStorage) (sid : String), sid ∈ rs.activeSessions →
      (rs.deleteSession sid).2 = .ok () ∧
      (∀ i, (rs.deleteSession sid).1.getFrame sid i =
        .error (.sessionNotFound sid)) ∧
      (rs.deleteSession sid).1.listFrames sid = .error (.sessionNotFound sid) ∧
      sid ∉ (rs.deleteSession sid).1.listSessions ∧
      ((rs.deleteSession sid).1.deleteSession sid).2 =
        .error (.sessionNotFound sid)) := by
  constructor
  · intro ms sid h
    rw [deleteSession_of_isSome h]
    refine ⟨rfl, ?_, ?_, ?_, ?_⟩
    · intro i
      unfold MemoryStorage.getFrame
      rw [lookupA_eraseKey_self]
    · unfold MemoryStorage.listFrames
      rw [lookupA_eraseKey_self]
    · show sid ∉ sortStrings (removeAll sid ms.sessions)
      rw [mem_sortStrings, mem_removeAll]
      exact fun hc => hc.2 rfl
    · rw [deleteSession_of_none (lookupA_eraseKey_self sid ms.frames)]
  · intro rs sid h
    have hdel : rs.deleteSession sid =
        ({ kv := eraseKey sid rs.kv,
           activeSessions := removeAll sid rs.activeSessions }, .ok ()) := by
      unfold RedisStorage.deleteSession
      rw [if_pos h]
    rw [hdel]
    have habs : sid ∉ removeAll sid rs.activeSessions := by
      rw [mem_removeAll]
      exact fun hc => hc.2 rfl
    refine ⟨rfl, ?_, ?_, ?_, ?_⟩
    · intro i
      unfold RedisStorage.getFrame
      rw [if_neg habs]
    · unfold RedisStorage.listFrames
      rw [if_neg habs]
    · show sid ∉ sortStrings (removeAll sid rs.activeSessions)
      rw [mem_sortStrings]
      exact habs
    · unfold RedisStorage.deleteSession
      rw [if_neg habs]

/-- Witness for C6: a store holding one frame for session s, on both
backends. -/
theorem deleteSession_removes_session_witness :
    ((lookupA "s" (memInit.putFrame dupA).frames).isSome ∧
      "s" ∈ (redisInit.putFrame dupA).activeSessions) ∧
    ((memInit.putFrame dupA).deleteSession "s").2 = .ok () ∧
    ((memInit.putFrame dupA).deleteSession "s").1.listFrames "s" =
      .error (.sessionNotFound "s") ∧
    ((redisInit.putFrame dupA).deleteSession "s").2 = .ok () ∧
    "s" ∉ ((redisInit.putFrame dupA).deleteSession "s").1.listSessions :=
  ⟨⟨by decide, by decide⟩,
   (deleteSession_removes_session.1 (memInit.putFrame dupA) "s" (by decide)).1,
   (deleteSession_removes_session.1 (memInit.putFrame dupA) "s" (by decide)).2.2.1,
   (deleteSession_removes_session.2 (redisInit.putFrame dupA) "s" (by decide)).1,
   (deleteSession_removes_session.2 (redisInit.putFrame dupA) "s" (by decide)).2.2.2.1⟩

/-! ### Claim C4 -/

/-- Claim C4 is refuted by the code: generateSessionID formats the wall
clock at second resolution with no disambiguator, so two CreateSession
calls within the same second (here at nanoseconds 0 and 4·10⁸ of second
5) return SessionInfo values with the same ID, and the second call
overwrites the first in the manager's map, leaving one stored session. -/
theorem createSession_same_tick_collides :
    (smInit.createSession ⟨5, 0⟩ "webrtc" []).1.id =
      ((smInit.createSession ⟨5, 0⟩ "webrtc" []).2.createSession
        ⟨5, 400000000⟩ "webrtc" []).1.id ∧
    (⟨5, 0⟩ : GoTime) ≠ (⟨5, 400000000⟩ : GoTime) ∧
    ((smInit.createSession ⟨5, 0⟩ "webrtc" []).2.createSession
        ⟨5, 400000000⟩ "webrtc" []).2.sessions.length = 1 := by decide

/-! ### Claim C9 -/

theorem mem_cleanupList_iff (now : GoTime) (maxAge : Int)
    (q : String × SessionInfo) (l : List (String × SessionInfo)) :
    q ∈ cleanupList now maxAge l ↔
      q ∈ l ∧ ¬ GoTime.sub now q.2.createdAt > maxAge := by
  induction l with
  | nil => simp [cleanupList]
  | cons p rest ih =>
      obtain ⟨k, inf⟩ := p
      by_cases hage : GoTime.sub now inf.createdAt > maxAge
      · rw [cleanupList, if_pos hage, ih, List.mem_cons]
        constructor
        · rintro ⟨h1, h2⟩
          exact ⟨Or.inr h1, h2⟩
        · rintro ⟨rfl | h1, h2⟩
          · exact absurd hage h2
          · exact ⟨h1, h2⟩
      · rw [cleanupList, if_neg hage, List.mem_cons, ih, List.mem_cons]
        constructor
        · rintro (rfl | ⟨h1, h2⟩)
          · exact ⟨Or.inl rfl, hage⟩
          · exact ⟨Or.inr h1, h2⟩
        · rintro ⟨rfl | h1, h2⟩
          · exact Or.inl rfl
          · exact Or.inr ⟨h1, h2⟩

theorem lookupA_of_not_mem_keys {α β : Type} [DecidableEq α] {k : α}
    {l : List (α × β)} (h : k ∉ l.map Prod.fst) : lookupA k l = none := by
  cases hl : lookupA k l with
  | none => rfl
  | some v => exact absurd ((lookupA_isSome_iff k l).mp (by rw [hl]; rfl)) h

theorem lookupA_cleanupList (now : GoTime) (maxAge : Int)
    {l : List (String × SessionInfo)} (hnd : (l.map Prod.fst).Nodup)
    (id : String) (info : SessionInfo) :
    lookupA id (cleanupList now maxAge l) = some info ↔
      (lookupA id l = some info ∧ ¬ GoTime.sub now info.createdAt > maxAge) := by
  induction l with
  | nil => simp [cleanupList, lookupA]
  | cons p rest ih =>
      obtain ⟨k, inf⟩ := p
      simp only [List.map_cons, List.nodup_cons] at hnd
      by_cases hage : GoTime.sub now inf.createdAt > maxAge
      · rw [cleanupList, if_pos hage]
        by_cases hid : id = k
        · subst hid
          have h1 : lookupA id (cleanupList now maxAge rest) = none := by
            refine lookupA_of_not_mem_keys ?_
            intro hc
            obtain ⟨q, hq, hqf⟩ := List.mem_map.mp hc
            exact hnd.1 (List.mem_map.mpr
              ⟨q, ((mem_cleanupList_iff now maxAge q rest).mp hq).1, hqf⟩)
          rw [h1, lookupA, if_pos rfl]
          constructor
          · intro hc
            cases hc
          · rintro ⟨h2, h3⟩
            cases h2
            exact absurd hage h3
        · rw [ih hnd.2, lookupA, if_neg hid]
      · rw [cleanupList, if_neg hage]
        by_cases hid : id = k
        · subst hid
          rw [lookupA, if_pos rfl, lookupA, if_pos rfl]
          constructor
          · intro h2
            cases h2
            exact ⟨rfl, hage⟩
          · rintro ⟨h2, h3⟩
            exact h2
        · rw [lookupA, if_neg hid, lookupA, if_neg hid, ih hnd.2]

/-- Claim C9: one invocation of the reaper's eviction scan removes
exactly the sessions whose age (now minus createdAt) strictly exceeds
maxAge: afterwards GetSession finds a session, with its SessionInfo
unchanged, iff it found it before and the age is at most maxAge, and the
same holds for membership in GetActiveSessions. -/
theorem cleanupExpiredSessions_spec (sm : SessionManager) (now : GoTime)
    (maxAge : Int) (hnd : (sm.sessions.map Prod.fst).Nodup) :
    (∀ id info,
      (sm.cleanupExpiredSessions now maxAge).getSession id = some info ↔
        (sm.getSession id = some info ∧
          ¬ GoTime.sub now info.createdAt > maxAge)) ∧
    (∀ info,
      info ∈ (sm.cleanupExpiredSessions now maxAge).getActiveSessions ↔
        (info ∈ sm.getActiveSessions ∧
          ¬ GoTime.sub now info.createdAt > maxAge)) := by
  constructor
  · intro id info
    exact lookupA_cleanupList now maxAge hnd id info
  · intro info
    show info ∈ (cleanupList now maxAge sm.sessions).map Prod.snd ↔ _
    constructor
    · intro h
      obtain ⟨q, hq, rfl⟩ := List.mem_map.mp h
      obtain ⟨hql, hage⟩ := (mem_cleanupList_iff now maxAge q sm.sessions).mp hq
      exact ⟨List.mem_map.mpr ⟨q, hql, rfl⟩, hage⟩
    · rintro ⟨hmem, hage⟩
      obtain ⟨q, hql, rfl⟩ := List.mem_map.mp hmem
      exact List.mem_map.mpr
        ⟨q, (mem_cleanupList_iff now maxAge q sm.sessions).mpr ⟨hql, hage⟩, rfl⟩

/-- Witness for C9: a registry with one expired and one fresh session,
scanned at t = 100s with maxAge = 20s. -/
theorem cleanupExpiredSessions_spec_witness :
    (smEx.sessions.map Prod.fst).Nodup ∧
    ((smEx.cleanupExpiredSessions ⟨100, 0⟩ 20000000000).getSession "old" =
        some infoOld ↔
      (smEx.getSession "old" = some infoOld ∧
        ¬ GoTime.sub ⟨100, 0⟩ infoOld.createdAt > 20000000000)) ∧
    ((smEx.cleanupExpiredSessions ⟨100, 0⟩ 20000000000).getSession "fresh" =
        some infoFresh ↔
      (smEx.getSession "fresh" = some infoFresh ∧
        ¬ GoTime.sub ⟨100, 0⟩ infoFresh.createdAt > 20000000000)) :=
  ⟨by decide,
   (cleanupExpiredSessions_spec smEx ⟨100, 0⟩ 20000000000 (by decide)).1
     "old" infoOld,
   (cleanupExpiredSessions_spec smEx ⟨100, 0⟩ 20000000000 (by decide)).1
     "fresh" infoFresh⟩

/-! ### Claim C7 -/

/-- Claim C7: when the registry yields an instance, a failing Initialize
makes StartPlugin return the wrapped error and leave the status map
untouched — in particular a name with no status entry still has none —
while a successful Initialize records a status entry with running = true
stamped with the start time. -/
theorem startPlugin_status (pm : PluginManager) (now : GoTime)
    (k : PluginType) (name : String) (cfg : Config) (p : Plugin)
    (hc : pm.registry.create k name = .ok p) :
    (∀ msg, p.initFn cfg = .error msg →
      (pm.startPlugin now k name cfg).2 = .error (.initFailed msg) ∧
      (pm.startPlugin now k name cfg).1 = pm ∧
      (pm.getPluginStatus name = .error (.statusNotFound name) →
        (pm.startPlugin now k name cfg).1.getPluginStatus name =
          .error (.statusNotFound name))) ∧
    (p.initFn cfg = .ok () →
      (pm.startPlugin now k name cfg).1.getPluginStatus name =
        .ok ⟨true, now, none⟩ ∧
      (pm.startPlugin now k name cfg).2 = .ok ()) := by
  constructor
  · intro msg hinit
    unfold PluginManager.startPlugin
    rw [hc]
    simp only [hinit]
    exact ⟨trivial, trivial, fun h => h⟩
  · intro hinit
    unfold PluginManager.startPlugin
    rw [hc]
    simp only [hinit]
    constructor
    · unfold PluginManager.getPluginStatus
      show (match lookupA name
              (updateAssoc name
                { running := true, startTime := now, lastError := none }
                pm.status) with
            | none => Except.error (PluginError.statusNotFound name)
            | some st => Except.ok st) = _
      rw [lookupA_updateAssoc_self]
    · trivial

/-- Witness for C7: the bad plugin's failed start changes nothing and the
good plugin's start records a running status. -/
theorem startPlugin_status_witness :
    pmEx.registry.create .ingress "bad" = .ok plugBad ∧
    pmEx.registry.create .ingress "camera" = .ok plugOk ∧
    (pmEx.startPlugin ⟨7, 0⟩ .ingress "bad" []).2 =
      .error (.initFailed "invalid config") ∧
    (pmEx.startPlugin ⟨7, 0⟩ .ingress "bad" []).1 = pmEx ∧
    (pmEx.startPlugin ⟨7, 0⟩ .ingress "camera" []).1.getPluginStatus "camera" =
      .ok ⟨true, ⟨7, 0⟩, none⟩ :=
  ⟨rfl, rfl,
   ((startPlugin_status pmEx ⟨7, 0⟩ .ingress "bad" [] plugBad rfl).1
     "invalid config" rfl).1,
   ((startPlugin_status pmEx ⟨7, 0⟩ .ingress "bad" [] plugBad rfl).1
     "invalid config" rfl).2.1,
   ((startPlugin_status pmEx ⟨7, 0⟩ .ingress "camera" [] plugOk rfl).2 rfl).1⟩

/-! ### Claim C8 -/

/-- Claim C8: registration is write-once per (kind, name): registering an
unregistered pair succeeds and stores the factory; registering an
already-registered pair returns the AlreadyRegistered error and leaves
the registry — hence the stored factory — unchanged; Create for a
never-registered pair returns NotFound. -/
theorem register_write_once (r : Registry) (k : PluginType) (name : String)
    (f : PluginFactory) :
    (Registry.find r k name = none →
      (r.register k name f).2 = .ok () ∧
      Registry.find (r.register k name f).1 k name = some f ∧
      r.create k name = .error (.notFound k name)) ∧
    (∀ f0, Registry.find r k name = some f0 →
      (r.register k name f).2 = .error (.alreadyRegistered name) ∧
      (r.register k name f).1 = r) := by
  constructor
  · intro hfind
    unfold Registry.find at hfind
    refine ⟨?_, ?_, ?_⟩
    · unfold Registry.register
      rw [hfind]
    · unfold Registry.register
      rw [hfind]
      unfold Registry.find
      show lookupA name ((lookupA k (updateAssoc k
        (updateAssoc name f ((lookupA k r.plugins).getD [])) r.plugins)).getD []) =
        some f
      rw [lookupA_updateAssoc_self, Option.getD_some, lookupA_updateAssoc_self]
    · unfold Registry.create
      cases houter : lookupA k r.plugins with
      | none => rfl
      | some factories =>
          rw [houter, Option.getD_some] at hfind
          simp only [hfind]
  · intro f0 hfind
    unfold Registry.find at hfind
    unfold Registry.register
    rw [hfind]
    exact ⟨rfl, rfl⟩

/-- Witness for C8: a fresh (egress, nonexistent) pair registers once and
was NotFound for Create; re-registering (ingress, camera) on `regEx`
fails and leaves the registry unchanged. -/
theorem register_write_once_witness :
    Registry.find registryInit .egress "nonexistent" = none ∧
    (registryInit.register .egress "nonexistent" facOk).2 = .ok () ∧
    registryInit.create .egress "nonexistent" =
      .error (.notFound .egress "nonexistent") ∧
    Registry.find regEx .ingress "camera" = some facOk ∧
    (regEx.register .ingress "camera" facBad).2 =
      .error (.alreadyRegistered "camera") ∧
    (regEx.register .ingress "camera" facBad).1 = regEx :=
  ⟨rfl,
   ((register_write_once registryInit .egress "nonexistent" facOk).1 rfl).1,
   ((register_write_once registryInit .egress "nonexistent" facOk).1 rfl).2.2,
   rfl,
   ((register_write_once regEx .ingress "camera" facBad).2 facOk rfl).1,
   ((register_write_once regEx .ingress "camera" facBad).2 facOk rfl).2⟩

end Relais
